import Mathlib

/-!
Verification of the 5 Whys wizard (FiveWhysApp.tsx / WhyCard.tsx).

Strings are modelled as `List Char`.  The JavaScript regular expressions used
by the code are modelled by executable scanners that follow the semantics of
`String.prototype.replace` with a global regex (left-to-right, non-overlapping
matches, scanning resumes after each match) and of `RegExp.prototype.test`.
-/

/-- Convert a string literal to the `List Char` representation used throughout. -/
def str (s : String) : List Char := s.data

/-! ### Sanitizer: `sanitizeInput` (identical in FiveWhysApp.tsx and WhyCard.tsx)

`value.replace(/<[^>]*>/g, "").replace(/javascript:/gi, "").replace(/on\w+=/gi, "")`
-/

/-- Scanner for `replace(/<[^>]*>/g, "")`.  Mode `false`: normal scanning; a
`<` with some `>` later starts a match (the regex `<[^>]*>` matches exactly up
to the first following `>`), otherwise the character is kept.  Mode `true`:
inside a match, characters are dropped up to and including the first `>`. -/
def rtGo : Bool → List Char → List Char
  | _, [] => []
  | false, c :: rest =>
    if c = '<' ∧ '>' ∈ rest then rtGo true rest
    else c :: rtGo false rest
  | true, c :: rest =>
    if c = '>' then rtGo false rest else rtGo true rest

/-- First replacement pass of `sanitizeInput`: strip complete HTML tags. -/
def removeTags (l : List Char) : List Char := rtGo false l

/-- Case-insensitive prefix test (ASCII case folding, as for a `/i` regex whose
pattern is lower-case). -/
def isPrefixCI : List Char → List Char → Bool
  | [], _ => true
  | _ :: _, [] => false
  | p :: ps, c :: cs => (c.toLower == p) && isPrefixCI ps cs

/-- The pattern of the second replacement pass, `javascript:`. -/
def jsPattern : List Char := str "javascript:"

/-- Scanner for `replace(/javascript:/gi, "")`.  The counter skips the
remaining characters of a match (the pattern has 11 characters; after
consuming the first one, 10 remain). -/
def rjGo : Nat → List Char → List Char
  | _, [] => []
  | k + 1, _ :: rest => rjGo k rest
  | 0, c :: rest =>
    if isPrefixCI jsPattern (c :: rest) then rjGo 10 rest
    else c :: rjGo 0 rest

/-- Second replacement pass of `sanitizeInput`: strip `javascript:` scheme
prefixes. -/
def removeJs (l : List Char) : List Char := rjGo 0 l

/-- JavaScript regex word character `\w`, i.e. `[A-Za-z0-9_]`. -/
def isWordChar (c : Char) : Bool := c.isAlpha || c.isDigit || c == '_'

/-- Length of the maximal leading run of word characters. -/
def wordRun : List Char → Nat
  | [] => 0
  | c :: rest => if isWordChar c then wordRun rest + 1 else 0

/-- Match of the regex `/on\w+=/i` at the head of the list: `on`
(case-insensitively), then a maximal nonempty run of word characters, then `=`.
Returns the total length of the match.  (Backtracking the greedy `\w+` can
never succeed, since shortening the run puts a word character where `=` is
required, so the maximal run is the only candidate.) -/
def matchOn : List Char → Option Nat
  | c1 :: c2 :: rest =>
    if c1.toLower = 'o' ∧ c2.toLower = 'n' then
      if 0 < wordRun rest ∧ (rest.drop (wordRun rest)).head? = some '=' then
        some (3 + wordRun rest)
      else none
    else none
  | _ => none

/-- Scanner for `replace(/on\w+=/gi, "")`; the counter skips the remaining
characters of a match. -/
def roGo : Nat → List Char → List Char
  | _, [] => []
  | k + 1, _ :: rest => roGo k rest
  | 0, c :: rest =>
    match matchOn (c :: rest) with
    | some n => roGo (n - 1) rest
    | none => c :: roGo 0 rest

/-- Third replacement pass of `sanitizeInput`: strip inline event-handler
fragments `on\w+=`. -/
def removeOn (l : List Char) : List Char := roGo 0 l

/-- `sanitizeInput` from FiveWhysApp.tsx lines 29-34 and WhyCard.tsx lines
49-55 (the two definitions are identical): three successive global
replacements. -/
def sanitizeInput (value : List Char) : List Char :=
  removeOn (removeJs (removeTags value))

/-! ### Validation: the zod schemas -/

/-- `RegExp.test` for `/on\w+=/i`: some suffix starts with a match. -/
def testOnEq : List Char → Bool
  | [] => false
  | c :: rest => (matchOn (c :: rest)).isSome || testOnEq rest

/-- Case-insensitive substring test: some suffix starts with the pattern. -/
def containsCI (pat : List Char) : List Char → Bool
  | [] => isPrefixCI pat []
  | c :: rest => isPrefixCI pat (c :: rest) || containsCI pat rest

/-- The refinement test `/<script|javascript:|on\w+=/i.test(val)` shared by
both schemas. -/
def injectionTest (s : List Char) : Bool :=
  containsCI (str "<script") s || containsCI jsPattern s || testOnEq s

/-- `problemSchema.safeParse` (FiveWhysApp.tsx lines 8-15): zod reports the
first failing check, in the order min, max, refine. -/
def problemSchemaParse (s : List Char) : Except (List Char) (List Char) :=
  if s.length < 3 then Except.error (str "Problem must be at least 3 characters")
  else if 500 < s.length then Except.error (str "Text too long (max 500 characters)")
  else if injectionTest s then Except.error (str "Invalid content")
  else Except.ok s

/-- `inputSchema.safeParse` (WhyCard.tsx lines 5-11): note that, unlike
`problemSchema`, this schema has no minimum-length check. -/
def inputSchemaParse (s : List Char) : Except (List Char) (List Char) :=
  if 500 < s.length then Except.error (str "Text too long (max 500 characters)")
  else if injectionTest s then Except.error (str "Invalid content")
  else Except.ok s

/-- Valid input in the sense of the specification: 3 to 500 characters and no
injection pattern. -/
def validInput (s : List Char) : Prop :=
  3 ≤ s.length ∧ s.length ≤ 500 ∧ injectionTest s = false

instance validInput.decidable (s : List Char) : Decidable (validInput s) :=
  inferInstanceAs (Decidable (3 ≤ s.length ∧ s.length ≤ 500 ∧ injectionTest s = false))

/-! ### Data model and controller (FiveWhysApp.tsx) -/

/-- `WhyStep` (FiveWhysApp.tsx lines 17-20). -/
structure WhyStep where
  question : List Char
  answer : List Char
deriving DecidableEq

/-- The React state of `FiveWhysApp` (lines 22-27): `problem`, `isStarted`,
`whySteps`, `currentStep`, `error`. -/
structure AppState where
  problem : List Char
  isStarted : Bool
  whySteps : List WhyStep
  currentStep : Nat
  error : Option (List Char)
deriving DecidableEq

/-- The initial state produced by the `useState` initializers. -/
def initState : AppState :=
  { problem := [], isStarted := false, whySteps := [], currentStep := 0, error := none }

/-- The question template `Why is "${t}" happening?`. -/
def whyQuestion (t : List Char) : List Char :=
  str "Why is \"" ++ t ++ str "\" happening?"

/-- `handleProblemChange` (lines 36-40): store the sanitized text and clear
the error. -/
def handleProblemChange (st : AppState) (raw : List Char) : AppState :=
  { st with problem := sanitizeInput raw, error := none }

/-- `startAnalysis` (lines 42-53): parse the stored problem; on failure set
the error message and change nothing else; on success mark the session
started with a single unanswered step embedding the problem text. -/
def startAnalysis (st : AppState) : AppState :=
  match problemSchemaParse st.problem with
  | Except.error msg => { st with error := some msg }
  | Except.ok _ =>
    { st with
        isStarted := true,
        whySteps := [⟨whyQuestion st.problem, []⟩],
        currentStep := 0 }

/-- `handleAnswerSubmit` (lines 55-70).  The source indexes
`updatedSteps[currentStep]` unconditionally; a JavaScript out-of-bounds access
would yield `undefined` and the assignment would throw, so the embedding
returns `none` in that case (shown unreachable from reachable states). -/
def handleAnswerSubmit? (st : AppState) (answer : List Char) : Option AppState :=
  match st.whySteps[st.currentStep]? with
  | none => none
  | some step =>
    let updatedSteps := st.whySteps.set st.currentStep { step with answer := answer }
    if st.currentStep < 4 then
      some { st with
        whySteps := updatedSteps ++ [⟨whyQuestion answer, []⟩],
        currentStep := st.currentStep + 1 }
    else
      some { st with whySteps := updatedSteps, currentStep := 5 }

/-- `resetAnalysis` (lines 72-78): reset every state field. -/
def resetAnalysis (st : AppState) : AppState :=
  { st with
      problem := [],
      isStarted := false,
      whySteps := [],
      currentStep := 0,
      error := none }

/-- A freshly started session: one unanswered step, current index 0. -/
def freshSession (p q : List Char) : AppState :=
  { problem := p, isStarted := true, whySteps := [⟨q, []⟩], currentStep := 0, error := none }

/-! ### Step presenter (WhyCard.tsx) -/

/-- JavaScript `String.prototype.trim`: drop whitespace from both ends. -/
def trimChars (s : List Char) : List Char :=
  ((s.dropWhile Char.isWhitespace).reverse.dropWhile Char.isWhitespace).reverse

/-- Outcome of the presenter submit handler: an inline validation message, a
silent no-op, or an answer forwarded to the controller. -/
inductive SubmitOutcome where
  | rejected (msg : List Char)
  | ignored
  | forwarded (answer : List Char)
deriving DecidableEq

/-- `handleSubmit` (WhyCard.tsx lines 64-76): schema failure shows the message
and returns; an input that is empty after trimming is dropped silently;
otherwise the trimmed input is forwarded to `onAnswerSubmit`. -/
def handleSubmit (inputValue : List Char) : SubmitOutcome :=
  match inputSchemaParse inputValue with
  | Except.error e => SubmitOutcome.rejected e
  | Except.ok _ =>
    if trimChars inputValue = [] then SubmitOutcome.ignored
    else SubmitOutcome.forwarded (trimChars inputValue)

/-! ### Reachable states

The UI exposes: editing the problem text (textarea rendered only before the
session starts), the start button (rendered only before the session starts,
disabled while the trimmed problem is empty), submitting an answer (a card's
input is rendered only for the active card, i.e. `currentStep === index` for
an existing index), and the reset button (rendered only once started). -/

/-- User events, as exposed by the rendered UI. -/
inductive Event where
  | changeProblem (raw : List Char)
  | start
  | submit (answer : List Char)
  | reset

/-- One UI transition: the guards record when the corresponding control is
rendered and enabled. -/
inductive AppStep : AppState → Event → AppState → Prop where
  | changeProblem (st : AppState) (raw : List Char) (h : st.isStarted = false) :
      AppStep st (Event.changeProblem raw) (handleProblemChange st raw)
  | start (st : AppState) (h : st.isStarted = false) (hne : trimChars st.problem ≠ []) :
      AppStep st Event.start (startAnalysis st)
  | submit (st st' : AppState) (a : List Char) (h : st.isStarted = true)
      (hact : st.currentStep < st.whySteps.length)
      (hsub : handleAnswerSubmit? st a = some st') :
      AppStep st (Event.submit a) st'
  | reset (st : AppState) (h : st.isStarted = true) :
      AppStep st Event.reset (resetAnalysis st)

/-- States reachable from the initial state through UI transitions. -/
inductive Reachable : AppState → Prop where
  | init : Reachable initState
  | step {st st' : AppState} {e : Event} : Reachable st → AppStep st e st' → Reachable st'

/-- The session invariant: while started, either in progress with
`steps.length = currentStep + 1`, or completed with index 5 and 5 steps;
before starting, no steps and index 0. -/
def SessionInv (st : AppState) : Prop :=
  (st.isStarted = true →
    (st.currentStep ≤ 4 ∧ st.whySteps.length = st.currentStep + 1) ∨
    (st.currentStep = 5 ∧ st.whySteps.length = 5)) ∧
  (st.isStarted = false → st.whySteps = [] ∧ st.currentStep = 0)

/-- The example input of the specification, `Car won't start` (the apostrophe
is written as its code point). -/
def carWontStart : List Char := str "Car won" ++ [Char.ofNat 39] ++ str "t start"

/-- A sanitizer output free of complete HTML tags: every `>` comes before
every `<`, i.e. the list splits into a part without `<` followed by a part
without `>`.  Equivalently, no `<` is ever followed by a later `>`. -/
def tagFree (l : List Char) : Prop :=
  ∃ A B, l = A ++ B ∧ '<' ∉ A ∧ '>' ∉ B

/-! ### Helper lemmas -/

theorem rtGo_sublist (l : List Char) : ∀ b, List.Sublist (rtGo b l) l := by
  induction l with
  | nil => intro b; cases b <;> simp [rtGo]
  | cons c rest ih =>
    intro b
    cases b with
    | false =>
      simp only [rtGo]
      split
      · exact List.Sublist.cons c (ih true)
      · exact List.Sublist.cons₂ c (ih false)
    | true =>
      simp only [rtGo]
      split
      · exact List.Sublist.cons c (ih false)
      · exact List.Sublist.cons c (ih true)

theorem rjGo_sublist (l : List Char) : ∀ k, List.Sublist (rjGo k l) l := by
  induction l with
  | nil => intro k; cases k <;> simp [rjGo]
  | cons c rest ih =>
    intro k
    cases k with
    | succ k => exact List.Sublist.cons c (ih k)
    | zero =>
      simp only [rjGo]
      split
      · exact List.Sublist.cons c (ih 10)
      · exact List.Sublist.cons₂ c (ih 0)

theorem roGo_sublist (l : List Char) : ∀ k, List.Sublist (roGo k l) l := by
  induction l with
  | nil => intro k; cases k <;> simp [roGo]
  | cons c rest ih =>
    intro k
    cases k with
    | succ k => exact List.Sublist.cons c (ih k)
    | zero =>
      simp only [roGo]
      split
      · exact List.Sublist.cons c (ih _)
      · exact List.Sublist.cons₂ c (ih 0)

theorem tagFree_of_sublist {t l : List Char} (hs : List.Sublist t l) (h : tagFree l) :
    tagFree t := by
  obtain ⟨A, B, rfl, hA, hB⟩ := h
  obtain ⟨A2, B2, rfl, hsA, hsB⟩ := List.sublist_append_iff.mp hs
  exact ⟨A2, B2, rfl, fun hm => hA (hsA.mem hm), fun hm => hB (hsB.mem hm)⟩

theorem tagFree_rtGo (l : List Char) : ∀ b, tagFree (rtGo b l) := by
  induction l with
  | nil => intro b; exact ⟨[], [], by cases b <;> simp [rtGo], by simp, by simp⟩
  | cons c rest ih =>
    intro b
    cases b with
    | true =>
      simp only [rtGo]
      split
      · exact ih false
      · exact ih true
    | false =>
      simp only [rtGo]
      split
      · exact ih true
      · rename_i hcond
        by_cases hc : c = '<'
        · have hg : '>' ∉ rest := fun hgt => hcond ⟨hc, hgt⟩
          refine ⟨[], c :: rtGo false rest, rfl, by simp, ?_⟩
          intro hm
          rcases List.mem_cons.mp hm with h1 | h2
          · exact absurd (h1.trans hc) (by decide)
          · exact hg ((rtGo_sublist rest false).mem h2)
        · obtain ⟨A, B, heq, hA, hB⟩ := ih false
          refine ⟨c :: A, B, by rw [heq, List.cons_append], ?_, hB⟩
          intro hm
          rcases List.mem_cons.mp hm with h1 | h2
          · exact hc h1.symm
          · exact hA h2

theorem tagFree_no_open_close {l u m v : List Char} (h : tagFree l)
    (heq : l = u ++ ('<' :: (m ++ v))) : '>' ∉ m := by
  obtain ⟨A, B, rfl, hA, hB⟩ := h
  intro hgt
  rcases List.append_eq_append_iff.mp heq with ⟨w, _, hb⟩ | ⟨w, hac, hcb⟩
  · exact hB (by
      rw [hb]
      exact List.mem_append_right w (List.mem_cons_of_mem _ (List.mem_append_left v hgt)))
  · cases w with
    | nil =>
      rw [List.nil_append] at hcb
      exact hB (by
        rw [← hcb]
        exact List.mem_cons_of_mem _ (List.mem_append_left v hgt))
    | cons x xs =>
      rw [List.cons_append] at hcb
      have hx : '<' = x := (List.cons.inj hcb).1
      exact hA (by
        rw [hac, ← hx]
        exact List.mem_append_right u (List.mem_cons_self _ _))

theorem head?_dropWhile_not (p : Char → Bool) (l : List Char) :
    ∀ c, (l.dropWhile p).head? = some c → p c = false := by
  induction l with
  | nil => intro c h; simp [List.dropWhile] at h
  | cons a rest ih =>
    intro c h
    rw [List.dropWhile] at h
    split at h
    · exact ih c h
    · rename_i hpa
      have hac : a = c := by simpa using h
      rw [← hac]
      simpa using hpa

theorem getLast?_dropWhile (p : Char → Bool) (l : List Char) :
    l.dropWhile p = [] ∨ (l.dropWhile p).getLast? = l.getLast? := by
  induction l with
  | nil => left; rfl
  | cons a rest ih =>
    rw [List.dropWhile]
    split
    · by_cases hdw : rest.dropWhile p = []
      · left; exact hdw
      · right
        rcases ih with h | h
        · exact absurd h hdw
        · rw [h]
          have hne : rest ≠ [] := by
            intro he
            rw [he] at hdw
            exact hdw rfl
          cases rest with
          | nil => exact absurd rfl hne
          | cons b l2 => rw [List.getLast?_cons_cons]
    · right; rfl

theorem trimChars_getLast? (s : List Char) :
    ∀ c, (trimChars s).getLast? = some c → c.isWhitespace = false := by
  intro c h
  unfold trimChars at h
  rw [List.getLast?_reverse] at h
  exact head?_dropWhile_not _ _ c h

theorem trimChars_head? (s : List Char) :
    ∀ c, (trimChars s).head? = some c → c.isWhitespace = false := by
  intro c h
  unfold trimChars at h
  rw [List.head?_reverse] at h
  rcases getLast?_dropWhile Char.isWhitespace ((s.dropWhile Char.isWhitespace).reverse) with
    hnil | hlast
  · rw [hnil] at h; simp at h
  · rw [hlast, List.getLast?_reverse] at h
    exact head?_dropWhile_not _ _ c h

theorem ws_cases {c : Char} (h : c.isWhitespace = true) :
    c = ' ' ∨ c = '\t' ∨ c = '\r' ∨ c = '\n' := by
  simpa [Char.isWhitespace, Bool.or_eq_true, decide_eq_true_eq, or_assoc] using h

theorem isPrefixCI_cons_false {p c : Char} {ps cs : List Char}
    (h : (c.toLower == p) = false) : isPrefixCI (p :: ps) (c :: cs) = false := by
  simp [isPrefixCI, h]

theorem containsCI_script_ws (l : List Char) (h : ∀ c ∈ l, c.isWhitespace = true) :
    containsCI (str "<script") l = false := by
  induction l with
  | nil => decide
  | cons c rest ih =>
    have hc : c.isWhitespace = true := h c (List.mem_cons_self c rest)
    have hrest : ∀ x ∈ rest, x.isWhitespace = true :=
      fun x hx => h x (List.mem_cons_of_mem c hx)
    have hlow : (c.toLower == '<') = false := by
      rcases ws_cases hc with rfl | rfl | rfl | rfl <;> decide
    rw [show str "<script" = '<' :: str "script" from rfl]
    simp only [containsCI, isPrefixCI_cons_false hlow, Bool.false_or]
    rw [show ('<' : Char) :: str "script" = str "<script" from rfl]
    exact ih hrest

theorem containsCI_js_ws (l : List Char) (h : ∀ c ∈ l, c.isWhitespace = true) :
    containsCI jsPattern l = false := by
  induction l with
  | nil => decide
  | cons c rest ih =>
    have hc : c.isWhitespace = true := h c (List.mem_cons_self c rest)
    have hrest : ∀ x ∈ rest, x.isWhitespace = true :=
      fun x hx => h x (List.mem_cons_of_mem c hx)
    have hlow : (c.toLower == 'j') = false := by
      rcases ws_cases hc with rfl | rfl | rfl | rfl <;> decide
    rw [show jsPattern = 'j' :: str "avascript:" from rfl]
    simp only [containsCI, isPrefixCI_cons_false hlow, Bool.false_or]
    rw [show ('j' : Char) :: str "avascript:" = jsPattern from rfl]
    exact ih hrest

theorem matchOn_not_o {c : Char} (h : c.toLower ≠ 'o') (l : List Char) :
    matchOn (c :: l) = none := by
  cases l with
  | nil => rfl
  | cons c2 rest =>
    have hcon : ¬(c.toLower = 'o' ∧ c2.toLower = 'n') := fun hx => h hx.1
    simp [matchOn, hcon]

theorem testOnEq_ws (l : List Char) (h : ∀ c ∈ l, c.isWhitespace = true) :
    testOnEq l = false := by
  induction l with
  | nil => rfl
  | cons c rest ih =>
    have hc : c.isWhitespace = true := h c (List.mem_cons_self c rest)
    have hrest : ∀ x ∈ rest, x.isWhitespace = true :=
      fun x hx => h x (List.mem_cons_of_mem c hx)
    have hlow : c.toLower ≠ 'o' := by
      rcases ws_cases hc with rfl | rfl | rfl | rfl <;> decide
    simp only [testOnEq, matchOn_not_o hlow, Option.isSome_none, Bool.false_or]
    exact ih hrest

theorem injectionTest_ws (l : List Char) (h : ∀ c ∈ l, c.isWhitespace = true) :
    injectionTest l = false := by
  unfold injectionTest
  rw [containsCI_script_ws l h, containsCI_js_ws l h, testOnEq_ws l h]
  rfl

theorem trimChars_ws_nil (l : List Char) (h : ∀ c ∈ l, c.isWhitespace = true) :
    trimChars l = [] := by
  unfold trimChars
  rw [List.dropWhile_eq_nil_iff.mpr h]
  rfl

theorem handleSubmit_cases (a : List Char) :
    handleSubmit a =
      if 500 < a.length then SubmitOutcome.rejected (str "Text too long (max 500 characters)")
      else if injectionTest a = true then SubmitOutcome.rejected (str "Invalid content")
      else if trimChars a = [] then SubmitOutcome.ignored
      else SubmitOutcome.forwarded (trimChars a) := by
  unfold handleSubmit inputSchemaParse
  by_cases h1 : 500 < a.length
  · rw [if_pos h1, if_pos h1]
  · rw [if_neg h1, if_neg h1]
    by_cases h2 : injectionTest a = true
    · rw [if_pos h2, if_pos h2]
    · rw [if_neg h2, if_neg h2]

theorem appStep_inv {st st' : AppState} {e : Event} (hinv : SessionInv st)
    (hstep : AppStep st e st') : SessionInv st' := by
  cases hstep with
  | changeProblem raw h => exact hinv
  | start h hne =>
    unfold startAnalysis
    cases hp : problemSchemaParse st.problem with
    | error msg => exact hinv
    | ok v =>
      constructor
      · intro _
        left
        exact ⟨Nat.zero_le 4, rfl⟩
      · intro hf
        exact Bool.noConfusion hf
  | submit st' a h hact hsub =>
    cases hget : st.whySteps[st.currentStep]? with
    | none =>
      simp only [handleAnswerSubmit?, hget] at hsub
      exact Option.noConfusion hsub
    | some stp =>
      simp only [handleAnswerSubmit?, hget] at hsub
      rcases hinv.1 h with ⟨hc4, hlen⟩ | ⟨hc5, hlen5⟩
      · by_cases h4 : st.currentStep < 4
        · rw [if_pos h4] at hsub
          have hst' := Option.some.inj hsub
          subst hst'
          refine ⟨fun _ => Or.inl ⟨?_, ?_⟩, fun hf => Bool.noConfusion (h.symm.trans hf)⟩
          · show st.currentStep + 1 ≤ 4
            omega
          · show (st.whySteps.set st.currentStep { stp with answer := a } ++
              [WhyStep.mk (whyQuestion a) []]).length = st.currentStep + 1 + 1
            rw [List.length_append, List.length_set]
            simp only [List.length_cons, List.length_nil]
            omega
        · rw [if_neg h4] at hsub
          have hst' := Option.some.inj hsub
          subst hst'
          constructor
          · intro _
            right
            constructor
            · rfl
            · show (st.whySteps.set st.currentStep { stp with answer := a }).length = 5
              rw [List.length_set]
              omega
          · intro hf
            exact Bool.noConfusion (h.symm.trans hf)
      · rw [hlen5, hc5] at hact
        exact absurd hact (by omega)
  | reset h =>
    exact ⟨fun hf => Bool.noConfusion hf, fun _ => ⟨rfl, rfl⟩⟩

theorem reachable_inv {st : AppState} (h : Reachable st) : SessionInv st := by
  induction h with
  | init => exact ⟨fun hf => Bool.noConfusion hf, fun _ => ⟨rfl, rfl⟩⟩
  | step hr hstep ih => exact appStep_inv ih hstep

theorem appStep_mono {st st' : AppState} {e : Event} (hinv : SessionInv st)
    (hstep : AppStep st e st') (hne : e ≠ Event.reset) :
    st.currentStep ≤ st'.currentStep := by
  cases hstep with
  | changeProblem raw h => exact Nat.le_refl _
  | start h hne2 =>
    have hz := (hinv.2 h).2
    unfold startAnalysis
    cases hp : problemSchemaParse st.problem with
    | error msg => exact Nat.le_refl _
    | ok v =>
      show st.currentStep ≤ 0
      omega
  | submit st' a h hact hsub =>
    cases hget : st.whySteps[st.currentStep]? with
    | none =>
      simp only [handleAnswerSubmit?, hget] at hsub
      exact Option.noConfusion hsub
    | some stp =>
      simp only [handleAnswerSubmit?, hget] at hsub
      by_cases h4 : st.currentStep < 4
      · rw [if_pos h4] at hsub
        have hst' := Option.some.inj hsub
        subst hst'
        show st.currentStep ≤ st.currentStep + 1
        omega
      · rw [if_neg h4] at hsub
        have hst' := Option.some.inj hsub
        subst hst'
        show st.currentStep ≤ 5
        rcases hinv.1 h with ⟨hc4, _⟩ | ⟨hc5, _⟩ <;> omega
  | reset h => exact absurd rfl hne

/-! ### Claims -/

/-- C1: Starting from a freshly started session (one unanswered step, current
index 0), five submissions with valid answers walk the session to completion:
each of the first four records the answer on the current step, appends a step
whose question embeds that answer, and advances the index by one; the fifth
records the answer and sets the index to 5 without appending a step, leaving
exactly 5 steps. -/
theorem c1_five_submits_complete (p q a1 a2 a3 a4 a5 : List Char)
    (h1 : validInput a1) (h2 : validInput a2) (h3 : validInput a3)
    (h4 : validInput a4) (h5 : validInput a5) :
    handleAnswerSubmit? (freshSession p q) a1 =
      some ⟨p, true, [⟨q, a1⟩, ⟨whyQuestion a1, []⟩], 1, none⟩ ∧
    handleAnswerSubmit? ⟨p, true, [⟨q, a1⟩, ⟨whyQuestion a1, []⟩], 1, none⟩ a2 =
      some ⟨p, true, [⟨q, a1⟩, ⟨whyQuestion a1, a2⟩, ⟨whyQuestion a2, []⟩], 2, none⟩ ∧
    handleAnswerSubmit?
        ⟨p, true, [⟨q, a1⟩, ⟨whyQuestion a1, a2⟩, ⟨whyQuestion a2, []⟩], 2, none⟩ a3 =
      some ⟨p, true,
        [⟨q, a1⟩, ⟨whyQuestion a1, a2⟩, ⟨whyQuestion a2, a3⟩, ⟨whyQuestion a3, []⟩], 3, none⟩ ∧
    handleAnswerSubmit?
        ⟨p, true,
          [⟨q, a1⟩, ⟨whyQuestion a1, a2⟩, ⟨whyQuestion a2, a3⟩, ⟨whyQuestion a3, []⟩],
          3, none⟩ a4 =
      some ⟨p, true,
        [⟨q, a1⟩, ⟨whyQuestion a1, a2⟩, ⟨whyQuestion a2, a3⟩, ⟨whyQuestion a3, a4⟩,
          ⟨whyQuestion a4, []⟩], 4, none⟩ ∧
    handleAnswerSubmit?
        ⟨p, true,
          [⟨q, a1⟩, ⟨whyQuestion a1, a2⟩, ⟨whyQuestion a2, a3⟩, ⟨whyQuestion a3, a4⟩,
            ⟨whyQuestion a4, []⟩], 4, none⟩ a5 =
      some ⟨p, true,
        [⟨q, a1⟩, ⟨whyQuestion a1, a2⟩, ⟨whyQuestion a2, a3⟩, ⟨whyQuestion a3, a4⟩,
          ⟨whyQuestion a4, a5⟩], 5, none⟩ :=
  ⟨rfl, rfl, rfl, rfl, rfl⟩

/-- C1 witness: five concrete valid answers from a concrete fresh session. -/
theorem c1_witness : ∃ s1 s2 s3 s4 s5 : AppState,
    handleAnswerSubmit?
      (freshSession (str "my problem") (whyQuestion (str "my problem")))
      (str "first why") = some s1 ∧
    handleAnswerSubmit? s1 (str "second why") = some s2 ∧
    handleAnswerSubmit? s2 (str "third why") = some s3 ∧
    handleAnswerSubmit? s3 (str "fourth why") = some s4 ∧
    handleAnswerSubmit? s4 (str "fifth why") = some s5 :=
  ⟨_, _, _, _, _,
    c1_five_submits_complete (str "my problem") (whyQuestion (str "my problem"))
      (str "first why") (str "second why") (str "third why") (str "fourth why")
      (str "fifth why")
      (by decide) (by decide) (by decide) (by decide) (by decide)⟩

/-- C2: For every state whose problem text is valid (3 to 500 characters, no
injection pattern), `startAnalysis` succeeds: it marks the session started
with exactly one step, whose question is `Why is "<problemText>" happening?`
and whose answer is empty. -/
theorem c2_start_produces_one_step (st : AppState) (h : validInput st.problem) :
    startAnalysis st =
      { st with
          isStarted := true,
          whySteps := [⟨whyQuestion st.problem, []⟩],
          currentStep := 0 } := by
  obtain ⟨h3, h500, hinj⟩ := h
  unfold startAnalysis problemSchemaParse
  rw [if_neg (by omega), if_neg (by omega), if_neg (by simp [hinj])]

/-- C2 witness: the specification's example input `Car won't start` produces
the first question `Why is "Car won't start" happening?`. -/
theorem c2_witness :
    validInput carWontStart ∧
    startAnalysis { initState with problem := carWontStart } =
      { initState with
          problem := carWontStart,
          isStarted := true,
          whySteps :=
            [⟨str "Why is \"Car won" ++ [Char.ofNat 39] ++ str "t start\" happening?", []⟩],
          currentStep := 0 } :=
  ⟨by decide,
    (c2_start_produces_one_step { initState with problem := carWontStart } (by decide)).trans
      (by decide)⟩

/-- C3: In every reachable state the current index stays in 0..5; while the
analysis is in progress (started, index at most 4) the number of steps equals
the index plus one, and a completed session (index 5) has exactly 5 steps;
and every transition other than reset never decreases the index. -/
theorem c3_invariant_and_forward :
    (∀ st : AppState, Reachable st →
      st.currentStep ≤ 5 ∧
      (st.isStarted = true → st.currentStep ≤ 4 →
        st.whySteps.length = st.currentStep + 1) ∧
      (st.isStarted = true → st.currentStep = 5 → st.whySteps.length = 5)) ∧
    (∀ (st st' : AppState) (e : Event), Reachable st → AppStep st e st' →
      e ≠ Event.reset → st.currentStep ≤ st'.currentStep) := by
  constructor
  · intro st hr
    have hinv := reachable_inv hr
    refine ⟨?_, ?_, ?_⟩
    · cases hbs : st.isStarted with
      | false => have hz := (hinv.2 hbs).2; omega
      | true => rcases hinv.1 hbs with ⟨h1, _⟩ | ⟨h1, _⟩ <;> omega
    · intro hs h4
      rcases hinv.1 hs with ⟨_, h2⟩ | ⟨h5, _⟩
      · exact h2
      · omega
    · intro hs h5
      rcases hinv.1 hs with ⟨h4, _⟩ | ⟨_, h2⟩
      · omega
      · exact h2
  · intro st st' e hr hstep hne
    exact appStep_mono (reachable_inv hr) hstep hne

/-- C3 witness: the invariant instantiated at the initial state. -/
theorem c3_witness :
    initState.currentStep ≤ 5 ∧
    (initState.isStarted = true → initState.currentStep ≤ 4 →
      initState.whySteps.length = initState.currentStep + 1) ∧
    (initState.isStarted = true → initState.currentStep = 5 →
      initState.whySteps.length = 5) :=
  c3_invariant_and_forward.1 initState Reachable.init

/-- C4: When the stored problem text is invalid (shorter than 3 characters,
longer than 500, or matching an injection pattern), `startAnalysis` sets a
validation message and leaves every other state field (problem text, started
flag, steps list, current index) unchanged. -/
theorem c4_invalid_start_unchanged (st : AppState) (h : ¬ validInput st.problem) :
    ∃ msg, startAnalysis st = { st with error := some msg } := by
  unfold startAnalysis problemSchemaParse
  by_cases h3 : st.problem.length < 3
  · exact ⟨_, by rw [if_pos h3]⟩
  · by_cases h500 : 500 < st.problem.length
    · exact ⟨_, by rw [if_neg h3, if_pos h500]⟩
    · have hinj : injectionTest st.problem = true := by
        cases hF : injectionTest st.problem with
        | false => exact absurd ⟨by omega, by omega, hF⟩ h
        | true => rfl
      exact ⟨_, by rw [if_neg h3, if_neg h500, if_pos hinj]⟩

/-- C4 witness: the two-character problem `ab` is rejected and only the error
field changes. -/
theorem c4_witness :
    ¬ validInput (str "ab") ∧
    ∃ msg, startAnalysis ⟨str "ab", false, [], 0, none⟩ =
      { (⟨str "ab", false, [], 0, none⟩ : AppState) with error := some msg } :=
  ⟨by decide, c4_invalid_start_unchanged ⟨str "ab", false, [], 0, none⟩ (by decide)⟩

/-- C5 counterexample: the two-character answer `ab` is shorter than 3
characters, yet the presenter accepts and forwards it because `inputSchema`
has no minimum-length check, while `problemSchema` would reject the same
text; so submission validation is not identical to `startAnalysis`
validation. -/
theorem c5_counterexample :
    (str "ab").length < 3 ∧
    handleSubmit (str "ab") = SubmitOutcome.forwarded (str "ab") ∧
    problemSchemaParse (str "ab") =
      Except.error (str "Problem must be at least 3 characters") :=
  ⟨by decide, by decide, rfl⟩

/-- C5 amended: the presenter forwards an answer exactly when it is at most
500 characters long, matches no injection pattern, and is nonempty after
trimming; unlike `problemSchema` there is no minimum-length requirement, so
answers of fewer than 3 characters can be accepted. -/
theorem c5_amended_accept_iff (a : List Char) :
    handleSubmit a = SubmitOutcome.forwarded (trimChars a) ↔
      a.length ≤ 500 ∧ injectionTest a = false ∧ trimChars a ≠ [] := by
  rw [handleSubmit_cases]
  by_cases h1 : 500 < a.length
  · rw [if_pos h1]
    constructor
    · intro hcon
      exact absurd hcon (fun hh => SubmitOutcome.noConfusion hh)
    · rintro ⟨hl, -, -⟩
      omega
  · rw [if_neg h1]
    cases h2 : injectionTest a with
    | true =>
      rw [if_pos rfl]
      constructor
      · intro hcon
        exact absurd hcon (fun hh => SubmitOutcome.noConfusion hh)
      · rintro ⟨-, hinj, -⟩
        exact Bool.noConfusion hinj
    | false =>
      rw [if_neg (fun hh => Bool.noConfusion hh)]
      by_cases h3 : trimChars a = []
      · rw [if_pos h3]
        constructor
        · intro hcon
          exact absurd hcon (fun hh => SubmitOutcome.noConfusion hh)
        · rintro ⟨-, -, hne⟩
          exact absurd h3 hne
      · rw [if_neg h3]
        constructor
        · intro _
          exact ⟨by omega, rfl, h3⟩
        · intro _
          rfl

/-- C6 counterexample: on input `<script javajavascript:script: oonx=nx=` the
sanitizer outputs `<script javascript: onx=`, which still contains a
`<script` fragment (the tag is unclosed, so `/<[^>]*>/` does not match it), a
`javascript:` fragment and an `on<word>=` fragment (both reassembled when
inner occurrences were deleted). -/
theorem c6_counterexample :
    sanitizeInput (str "<script javajavascript:script: oonx=nx=") =
      str "<script javascript: onx=" ∧
    containsCI (str "<script")
      (sanitizeInput (str "<script javajavascript:script: oonx=nx=")) = true ∧
    containsCI jsPattern
      (sanitizeInput (str "<script javajavascript:script: oonx=nx=")) = true ∧
    testOnEq (sanitizeInput (str "<script javajavascript:script: oonx=nx=")) = true :=
  ⟨by decide, by decide, by decide, by decide⟩

/-- C6 amended: the sanitizer output never has a `<` followed by a later `>`
(it splits into a `<`-free prefix and a `>`-free suffix), so no complete HTML
tag and in particular no complete `<script>` tag survives; however, unclosed
fragments such as `<script`, and `javascript:` or `on<word>=` occurrences
reassembled by the deletions, can remain in the output. -/
theorem c6_amended_no_complete_tag (s : List Char) :
    tagFree (sanitizeInput s) ∧ ¬ List.IsInfix (str "<script>") (sanitizeInput s) := by
  have ht : tagFree (sanitizeInput s) :=
    tagFree_of_sublist
      ((roGo_sublist (removeJs (removeTags s)) 0).trans (rjGo_sublist (removeTags s) 0))
      (tagFree_rtGo s false)
  refine ⟨ht, ?_⟩
  rintro ⟨u, v, huv⟩
  have hc : u ++ str "<script>" ++ v = u ++ ('<' :: (str "script>" ++ v)) := by
    rw [show str "<script>" = '<' :: str "script>" from rfl]
    rw [List.append_assoc, List.cons_append]
  exact tagFree_no_open_close ht (huv.symm.trans hc) (by decide)

/-- C7 counterexample: the problem text ` abc ` (leading and trailing spaces)
passes validation, and after a successful `startAnalysis` the stored problem
text still begins with whitespace: accepted problem text is forwarded to the
controller without being trimmed. -/
theorem c7_counterexample :
    validInput (str " abc ") ∧
    (startAnalysis ⟨str " abc ", false, [], 0, none⟩).isStarted = true ∧
    (startAnalysis ⟨str " abc ", false, [], 0, none⟩).problem = str " abc " ∧
    (str " abc ").head? = some ' ' ∧
    (' ').isWhitespace = true :=
  ⟨by decide, by decide, by decide, rfl, rfl⟩

/-- C7 amended: every answer the presenter forwards to the controller is the
trimmed input, so no recorded answer has leading or trailing whitespace; the
problem text, by contrast, is stored as typed (sanitized but never trimmed). -/
theorem c7_amended_answers_trimmed (a f : List Char)
    (h : handleSubmit a = SubmitOutcome.forwarded f) :
    f = trimChars a ∧
    (∀ c, f.head? = some c → c.isWhitespace = false) ∧
    (∀ c, f.getLast? = some c → c.isWhitespace = false) := by
  rw [handleSubmit_cases] at h
  by_cases h1 : 500 < a.length
  · rw [if_pos h1] at h
    exact absurd h (fun hh => SubmitOutcome.noConfusion hh)
  · rw [if_neg h1] at h
    by_cases h2 : injectionTest a = true
    · rw [if_pos h2] at h
      exact absurd h (fun hh => SubmitOutcome.noConfusion hh)
    · rw [if_neg h2] at h
      by_cases h3 : trimChars a = []
      · rw [if_pos h3] at h
        exact absurd h (fun hh => SubmitOutcome.noConfusion hh)
      · rw [if_neg h3] at h
        have hf : f = trimChars a := (SubmitOutcome.forwarded.inj h).symm
        subst hf
        exact ⟨rfl, trimChars_head? a, trimChars_getLast? a⟩

/-- C7 witness: the answer `  root cause ` is forwarded as `root cause`,
which is trimmed on both ends. -/
theorem c7_witness :
    handleSubmit (str "  root cause ") = SubmitOutcome.forwarded (str "root cause") ∧
    (str "root cause" = trimChars (str "  root cause ") ∧
      (∀ c, (str "root cause").head? = some c → c.isWhitespace = false) ∧
      (∀ c, (str "root cause").getLast? = some c → c.isWhitespace = false)) :=
  ⟨by decide,
    c7_amended_answers_trimmed (str "  root cause ") (str "root cause") (by decide)⟩

/-- C8: From every reachable state (idle, any in-progress step, or
completed), reset returns the session to the initial empty state: not
started, empty problem text, no steps, current index 0, no pending error. -/
theorem c8_reset_returns_initial (st : AppState) (h : Reachable st) :
    resetAnalysis st = initState := rfl

/-- C8 witness: reset applied to the initial state. -/
theorem c8_witness : resetAnalysis initState = initState :=
  c8_reset_returns_initial initState Reachable.init

set_option maxRecDepth 10000 in
/-- C9 counterexample: a whitespace-only input of 501 characters is not a
silent no-op: it fails the schema's 500-character cap, so a validation
message is shown instead. -/
theorem c9_counterexample :
    (∀ c ∈ List.replicate 501 ' ', c.isWhitespace = true) ∧
    handleSubmit (List.replicate 501 ' ') =
      SubmitOutcome.rejected (str "Text too long (max 500 characters)") := by
  constructor
  · intro c hc
    rw [List.eq_of_mem_replicate hc]
    rfl
  · rfl

/-- C9 amended: submitting an answer that is empty or consists only of
whitespace and is at most 500 characters long is a silent no-op: it passes
schema validation (so no error message is shown) but is never forwarded to
the controller. -/
theorem c9_amended_ws_noop (a : List Char) (hlen : a.length ≤ 500)
    (hws : ∀ c ∈ a, c.isWhitespace = true) :
    handleSubmit a = SubmitOutcome.ignored := by
  rw [handleSubmit_cases]
  rw [if_neg (by omega)]
  rw [if_neg (fun hh => Bool.noConfusion ((injectionTest_ws a hws).symm.trans hh))]
  rw [if_pos (trimChars_ws_nil a hws)]

/-- C9 witness: the single-space input. -/
theorem c9_witness :
    (str " ").length ≤ 500 ∧ handleSubmit (str " ") = SubmitOutcome.ignored :=
  ⟨by decide, c9_amended_ws_noop (str " ") (by decide) (by decide)⟩

/-- C10: In every reachable state in which an answer can be submitted
(session started, current index between 0 and 4), the current index is a
valid index into the steps list, so the answer-recording update never goes
out of bounds and the guarded embedding never returns `none`. -/
theorem c10_index_in_bounds (st : AppState) (a : List Char) (hr : Reachable st)
    (hs : st.isStarted = true) (h4 : st.currentStep ≤ 4) :
    st.currentStep < st.whySteps.length ∧
      (handleAnswerSubmit? st a).isSome = true := by
  have hinv := reachable_inv hr
  have hlt : st.currentStep < st.whySteps.length := by
    rcases hinv.1 hs with ⟨_, h2⟩ | ⟨h5, h2⟩ <;> omega
  refine ⟨hlt, ?_⟩
  simp only [handleAnswerSubmit?, List.getElem?_eq_getElem hlt]
  split <;> rfl

/-- C10 witness: a concrete reachable started state with one step and index
0, obtained by typing `abc` and starting the analysis. -/
theorem c10_witness :
    (startAnalysis (handleProblemChange initState (str "abc"))).currentStep <
      (startAnalysis (handleProblemChange initState (str "abc"))).whySteps.length ∧
    (handleAnswerSubmit? (startAnalysis (handleProblemChange initState (str "abc")))
      (str "xyz")).isSome = true :=
  c10_index_in_bounds (startAnalysis (handleProblemChange initState (str "abc")))
    (str "xyz")
    (Reachable.step
      (Reachable.step Reachable.init (AppStep.changeProblem initState (str "abc") rfl))
      (AppStep.start (handleProblemChange initState (str "abc")) rfl (by decide)))
    (by decide) (by decide)
